import Mathlib

/-!
# Verification of the biathlon race-report program

Shallow embedding of `main.go` (event parsing, the per-competitor race state
machine, result finalization) together with theorems settling the claims of
the specification.  Machine integers are modelled as `Int`/`Nat`; Go
`time.Time` values are modelled as `Int` nanoseconds since the Go zero time
(January 1, year 1), so the zero `time.Time` is `0` and a wall-clock value
parsed from an `HH:MM:SS.mmm` string (which Go places on January 1 of year 0)
is `nanoseconds-of-day - 366 days`.  Go `time.Duration` values are `Int`
nanoseconds.  Fallible operations return `Option`; a `none` from the state
machine models a Go nil-pointer panic (the process dies).
-/

namespace Biathlon

/-! ## IEEE-754 binary64 model

`parseDelta` in `main.go` computes its milliseconds through `float64`
(`strconv.ParseFloat`, a subtraction, a multiplication by 1000 and an `int`
truncation).  To embed it faithfully we model binary64 arithmetic exactly
over unnormalized integer fractions: every operation computes the exact
rational result and rounds it to the nearest representable double (round
half to even).  Subnormal and overflow
ranges never arise for the values involved (seconds below 100, products below
10^5), so the model covers normal numbers and zero, which is the domain
exercised by the program.
-/

/-- An exact unnormalized fraction with positive denominator: the value
`num / den`.  Avoiding normalization keeps every operation a plain
constructor/primitive computation. -/
structure Frac where
  num : ℤ
  den : ℤ
deriving Repr, DecidableEq

/-- Embed an integer. -/
def fracOfInt (n : ℤ) : Frac := ⟨n, 1⟩

/-- Exact difference. -/
def fracSub (a b : Frac) : Frac := ⟨a.num * b.den - b.num * a.den, a.den * b.den⟩

/-- Exact product with an integer. -/
def fracMulInt (a : Frac) (k : ℤ) : Frac := ⟨a.num * k, a.den⟩

/-- Round the value of a fraction (positive denominator) to an integer,
half to even (the IEEE default rounding of ties). -/
def rhe (r : Frac) : ℤ :=
  let fl := Int.fdiv r.num r.den
  let rem := r.num - fl * r.den
  if 2 * rem < r.den then fl
  else if r.den < 2 * rem then fl + 1
  else if fl % 2 = 0 then fl else fl + 1

/-- Floor of binary logarithm, by structural recursion on a fuel bound
(`log2Fuel n n` is exact for every `n`, since `n` halvings always reach 1). -/
def log2Fuel : ℕ → ℕ → ℕ
  | 0, _ => 0
  | fuel + 1, n => if 2 ≤ n then log2Fuel fuel (n / 2) + 1 else 0

/-- Computes `⌊log₂ n⌋`. -/
def log2N (n : ℕ) : ℕ := log2Fuel n n

/-- Here `expOfParts n d` is `⌊log₂ (n/d)⌋` for positive naturals: the unique
`e` with `2^e ≤ n/d < 2^(e+1)`. -/
def expOfParts (n d : ℕ) : ℤ :=
  if d ≤ n then (log2N (n / d) : ℤ)
  else
    let k0 := log2N (d / n)
    if n * 2 ^ k0 = d then -(k0 : ℤ) else -((k0 : ℤ) + 1)

/-- Round an exact fraction to the nearest IEEE-754 binary64 value
(53-bit significand, round half to even), for the normal range and zero:
scale into `[2^52, 2^53)`, round to an integer significand, scale back. -/
def roundQ (q : Frac) : Frac :=
  if q.num = 0 then ⟨0, 1⟩
  else
    let e : ℤ := expOfParts q.num.natAbs q.den.natAbs
    let s : ℤ := 52 - e
    let scaled : Frac :=
      if 0 ≤ s then ⟨q.num * 2 ^ s.toNat, q.den⟩ else ⟨q.num, q.den * 2 ^ (-s).toNat⟩
    let m := rhe scaled
    if 0 ≤ s then ⟨m, 2 ^ s.toNat⟩ else ⟨m * 2 ^ (-s).toNat, 1⟩

/-- Go `int(x)` on a `float64`: truncation toward zero (`Int.tdiv` is the
division that truncates toward zero; the denominator is positive). -/
def truncQ (q : Frac) : ℤ := Int.tdiv q.num q.den

/-! ## Character and string utilities

Strings are modelled as `List Char`.  These helpers embed the pieces of the
Go standard library that `main.go` relies on (`strings.Split`,
`strconv.Atoi`, `strconv.ParseFloat`), restricted to the forms of input the
program feeds them (plain decimal literals; no exponents, hex floats or
underscores). -/

/-- Numeric value of a decimal digit character. -/
def digitVal (c : Char) : ℕ := c.toNat - 48

/-- Decimal value of a list of digit characters (most significant first). -/
def digitsVal (l : List Char) : ℕ := l.foldl (fun acc c => acc * 10 + digitVal c) 0

/-- Go `strings.Split s ":"` from the standard library. -/
def splitOnChar (sep : Char) : List Char → List (List Char)
  | [] => [[]]
  | c :: cs =>
    match splitOnChar sep cs with
    | [] => [[]]
    | r :: rs => if c = sep then [] :: r :: rs else (c :: r) :: rs

/-- Go `strconv.Atoi`: an optional sign followed by a nonempty run of digits;
anything else is an error (`none`).  Overflow is not modelled (the program
feeds it at most three-character fields). -/
def atoiModel (s : List Char) : Option ℤ :=
  match s with
  | [] => none
  | '+' :: rest =>
    if rest ≠ [] ∧ rest.all Char.isDigit then some (digitsVal rest : ℤ) else none
  | '-' :: rest =>
    if rest ≠ [] ∧ rest.all Char.isDigit then some (-(digitsVal rest : ℤ)) else none
  | _ =>
    if s.all Char.isDigit then some (digitsVal s : ℤ) else none

/-- Go `strconv.ParseFloat _ 64` on plain decimal literals
(`[+-]?digits[.digits]?` or `[+-]?.digits`), returning the correctly rounded
binary64 value as an exact rational.  Other syntactic forms (exponents, hex,
infinities), which the program never produces from its inputs of interest,
are treated as errors. -/
def parseFloatCore (s : List Char) : Option Frac :=
  let ip := s.takeWhile Char.isDigit
  let rest := s.drop ip.length
  match rest with
  | [] =>
    if ip = [] then none
    else some (roundQ (fracOfInt (digitsVal ip : ℤ)))
  | '.' :: frac =>
    if frac.all Char.isDigit ∧ (ip ≠ [] ∨ frac ≠ []) then
      some (roundQ ⟨(digitsVal ip : ℤ) * 10 ^ frac.length + (digitsVal frac : ℤ),
                    (10 : ℤ) ^ frac.length⟩)
    else none
  | _ => none

/-- Go `strconv.ParseFloat` with the optional leading sign. -/
def parseFloatModel (s : List Char) : Option Frac :=
  match s with
  | '+' :: rest => parseFloatCore rest
  | '-' :: rest => (parseFloatCore rest).map (fun q => ⟨-q.num, q.den⟩)
  | _ => parseFloatCore s

/-! ## `parseDelta` (main.go lines 122-133)

```go
func parseDelta(s string) (time.Duration, error) {
    parts := strings.Split(s, ":")
    if len(parts) != 3 {
        return 0, fmt.Errorf("invalid delta format: %s", s)
    }
    h, _ := strconv.Atoi(parts[0])
    m, _ := strconv.Atoi(parts[1])
    sSec, _ := strconv.ParseFloat(parts[2], 64)
    sec := int(sSec)
    msec := int((sSec - float64(sec)) * 1000)
    return time.Duration(h)*time.Hour + ... + time.Duration(msec)*time.Millisecond, nil
}
```

Note that the `Atoi`/`ParseFloat` errors are discarded (`_`), so malformed
components silently contribute zero; the only error exit is the field count.
The float64 steps are: `ParseFloat` (correctly rounded), `float64(sec)`
(exact int-to-double conversion, rounded in general), one float subtraction
and one float multiplication (each correctly rounded), then truncation. -/

/-- The function `parseDelta`, returning nanoseconds (`time.Duration`). -/
def parseDelta (s : List Char) : Option ℤ :=
  match splitOnChar ':' s with
  | [p0, p1, p2] =>
    let hh := (atoiModel p0).getD 0
    let mm := (atoiModel p1).getD 0
    let sSec := (parseFloatModel p2).getD (fracOfInt 0)
    let sec : ℤ := truncQ sSec
    let diff := roundQ (fracSub sSec (roundQ (fracOfInt sec)))
    let msec : ℤ := truncQ (roundQ (fracMulInt diff 1000))
    some (hh * 3600000000000 + mm * 60000000000 + sec * 1000000000 + msec * 1000000)
  | _ => none

/-! ## Go `time.Parse` models

`main.go` parses wall-clock strings with two layouts: `"15:04:05.000"`
(`timeLayout`, used for event timestamps, `cfg.Start` and the
`AssignedStartTime` payload) and `"15:04:05"` (used at line 220 to re-parse
`cfg.StartDelta`).  A parse with these layouts yields a `time.Time` on
January 1 of year 0, which lies 366 days (year 0 is a leap year) before the
zero `time.Time` (January 1, year 1); in the `Int`-nanosecond model a
successfully parsed time-of-day of `tod` nanoseconds is `tod - 366 days`.

Layout element `"15"` parses one or two digits; `"04"` and `"05"` parse
exactly two digits; `".000"` demands a period (or comma) and exactly three
digits.  Go: hours must be below 24, minutes and seconds below 60, and any
unconsumed input is an "extra text" error.  When the layout has no
fractional-second element, `time.Parse` still accepts a fractional second: a
period or comma directly after the seconds followed by a maximal run of one
to nine digits (this documented special case is what makes line 220 accept
`HH:MM:SS.mmm` start deltas). -/

/-- The 366 days in nanoseconds between the parsed date and the epoch: the distance from the parsed date
(January 1, year 0) back to the Go zero time. -/
def yearZeroGap : ℤ := 31622400000000000

/-- Consume an expected character. -/
def expectChar (c : Char) : List Char → Option (List Char)
  | x :: rest => if x = c then some rest else none
  | [] => none

/-- Consume exactly `n` digit characters. -/
def takeDigitsExact : ℕ → List Char → Option (List Char × List Char)
  | 0, l => some ([], l)
  | n + 1, c :: rest =>
    if c.isDigit then
      (takeDigitsExact n rest).map (fun p => (c :: p.1, p.2))
    else none
  | _ + 1, [] => none

/-- Consume a maximal (possibly empty) run of digit characters. -/
def takeDigitRun (l : List Char) : List Char × List Char :=
  (l.takeWhile Char.isDigit, l.dropWhile Char.isDigit)

/-- Go `getnum(s, false)`: one or two digits. -/
def getnum2 (l : List Char) : Option (ℕ × List Char) :=
  match l with
  | c1 :: c2 :: rest =>
    if c1.isDigit then
      if c2.isDigit then some (digitVal c1 * 10 + digitVal c2, rest)
      else some (digitVal c1, c2 :: rest)
    else none
  | [c1] => if c1.isDigit then some (digitVal c1, []) else none
  | [] => none

/-- Go `getnum(s, true)`: exactly two digits. -/
def getnumFixed2 (l : List Char) : Option (ℕ × List Char) :=
  match l with
  | c1 :: c2 :: rest =>
    if c1.isDigit ∧ c2.isDigit then some (digitVal c1 * 10 + digitVal c2, rest)
    else none
  | _ => none

/-- The shared `HH:MM:SS` prefix of both layouts, with Go's range checks. -/
def parseHMSCore (l : List Char) : Option (ℕ × List Char) := do
  let (hh, r1) ← getnum2 l
  let r2 ← expectChar ':' r1
  let (mm, r3) ← getnumFixed2 r2
  let r4 ← expectChar ':' r3
  let (ss, r5) ← getnumFixed2 r4
  if hh < 24 ∧ mm < 60 ∧ ss < 60 then
    some (hh * 3600 + mm * 60 + ss, r5)
  else none

/-- Go `time.Parse("15:04:05.000", s)` as a Go `time.Time` in the `Int` model:
seconds-of-day from `HH:MM:SS`, a mandatory period (or comma) plus exactly
three fractional digits, no trailing input. -/
def goParseTimeLayout (l : List Char) : Option ℤ := do
  let (secs, r5) ← parseHMSCore l
  let r6 ← match r5 with
           | '.' :: r => some r
           | ',' :: r => some r
           | _ => none
  let (f3, r7) ← takeDigitsExact 3 r6
  match r7 with
  | [] => some ((secs : ℤ) * 1000000000 + (digitsVal f3 : ℤ) * 1000000 - yearZeroGap)
  | _ => none

/-- Go `time.Parse("15:04:05", s)`: seconds-of-day from `HH:MM:SS`, then the
documented special case accepting an optional fractional second (period or
comma plus a maximal run of one to nine digits), no trailing input.  The
result is returned as nanoseconds within the day, because line 220-228 of
`main.go` only ever uses this value as
`deltaTime.Sub(midnight of deltaTime's day)`. -/
def goParseHMSDay (l : List Char) : Option ℤ := do
  let (secs, r5) ← parseHMSCore l
  match r5 with
  | [] => some ((secs : ℤ) * 1000000000)
  | '.' :: r =>
    let (run, rest) := takeDigitRun r
    if run ≠ [] ∧ run.length ≤ 9 ∧ rest = [] then
      some ((secs : ℤ) * 1000000000 + (digitsVal run : ℤ) * 10 ^ (9 - run.length))
    else none
  | ',' :: r =>
    let (run, rest) := takeDigitRun r
    if run ≠ [] ∧ run.length ≤ 9 ∧ rest = [] then
      some ((secs : ℤ) * 1000000000 + (digitsVal run : ℤ) * 10 ^ (9 - run.length))
    else none
  | _ => none

/-- The interval computed at lines 220-228 of `main.go`:
`deltaTime, err := time.Parse("15:04:05", cfg.StartDelta)` (on error the
message is printed and `deltaTime` stays the zero `time.Time`) followed by
`deltaTime.Sub(time.Date(deltaTime.Year(), ..., 0, 0, 0, 0, loc))`.  On a
successful parse this subtraction yields the time-of-day duration; on a
failed parse it is the zero time minus its own midnight, that is `0`. -/
def startDeltaInterval (sd : List Char) : ℤ := (goParseHMSDay sd).getD 0

/-! ## `parseEvent` and the event regular expression (main.go lines 47, 84-97)

`eventRegex` is the unanchored pattern
`\[(\d{2}:\d{2}:\d{2}\.\d{3})\] (\d+) (\d+)(?: (.*))?` and
`FindStringSubmatch` returns the leftmost match.  For this pattern the
match at a given start position is deterministic: each `\d+` grabs a maximal
digit run (a shorter match would leave a digit where a space is required),
and the optional payload group matches exactly when a space follows the
competitor field, the greedy `(.*)` then taking the rest of the line.
On a match, `FindStringSubmatch` always returns five entries (an unmatched
optional group is the empty string), so the `len(matches) < 4` guard in
`parseEvent` fails exactly when there is no match anywhere in the line. -/

/-- Try to match the event pattern at the start of `l`; on success return
the captures `(timestamp, eventID digits, competitorID digits, payload)`. -/
def matchEventAt (l : List Char) : Option (List Char × List Char × List Char × List Char) := do
  let r0 ← expectChar '[' l
  let (h2, r1) ← takeDigitsExact 2 r0
  let r2 ← expectChar ':' r1
  let (m2, r3) ← takeDigitsExact 2 r2
  let r4 ← expectChar ':' r3
  let (s2, r5) ← takeDigitsExact 2 r4
  let r6 ← expectChar '.' r5
  let (f3, r7) ← takeDigitsExact 3 r6
  let r8 ← expectChar ']' r7
  let r9 ← expectChar ' ' r8
  let (eid, r10) := takeDigitRun r9
  if eid = [] then none else
  let r11 ← expectChar ' ' r10
  let (cid, r12) := takeDigitRun r11
  if cid = [] then none else
  let ts := h2 ++ ':' :: m2 ++ ':' :: s2 ++ '.' :: f3
  match r12 with
  | ' ' :: rest => some (ts, eid, cid, rest)
  | _ => some (ts, eid, cid, [])

/-- Leftmost match of the event pattern in a line. -/
def findEventMatch : List Char → Option (List Char × List Char × List Char × List Char)
  | [] => none
  | c :: cs => matchEventAt (c :: cs) <|> findEventMatch cs

/-- A structured event (main.go `Event`). -/
structure Event where
  time : ℤ
  rawTime : List Char
  eventID : ℤ
  competitorID : ℤ
  extra : List Char
deriving Repr, DecidableEq

/-- The function `parseEvent` (main.go lines 84-97): regex match, then
`time.Parse(timeLayout, matches[1])`; the `Atoi` calls cannot fail on the
all-digit captures and their errors are discarded. -/
def parseEvent (line : List Char) : Option Event := do
  let (ts, eidS, cidS, extra) ← findEventMatch line
  let t ← goParseTimeLayout ts
  some { time := t
         rawTime := ts
         eventID := (atoiModel eidS).getD 0
         competitorID := (atoiModel cidS).getD 0
         extra := extra }

/-! ## Data model (main.go lines 15-44) -/

/-- The race configuration (`Config` in main.go).  `start` and `startDelta`
stay strings, exactly as in the Go struct; `main` parses them separately. -/
structure Config where
  laps : ℤ
  lapLen : ℤ
  penaltyLen : ℤ
  firingLines : ℤ
  start : List Char
  startDelta : List Char
deriving Repr, DecidableEq

/-- A per-competitor record (`Competitor` in main.go).  Times are Go
`time.Time` values in the `Int` model (zero value `0`); the duration lists
hold `time.Duration` nanoseconds. -/
structure Competitor where
  id : ℤ
  started : Bool
  lapsCompleted : ℤ
  hits : ℤ
  isDisqualified : Bool
  isNotFinished : Bool
  startTime : ℤ
  finishTime : ℤ
  startPenalty : ℤ
  lapTimes : List ℤ
  penaltyTimes : List ℤ
deriving Repr, DecidableEq

/-- Go expression `&Competitor{ID: id}`: a fresh record with zero-valued fields. -/
def freshCompetitor (i : ℤ) : Competitor :=
  { id := i, started := false, lapsCompleted := 0, hits := 0
    isDisqualified := false, isNotFinished := false
    startTime := 0, finishTime := 0, startPenalty := 0
    lapTimes := [], penaltyTimes := [] }

/-- The `competitors` map is modelled as an association list with
insert-or-replace update (Go map semantics; iteration order is irrelevant to
the claims, which are per key). -/
def lookupComp (m : List (ℤ × Competitor)) (k : ℤ) : Option Competitor :=
  match m with
  | [] => none
  | (k', c) :: rest => if k = k' then some c else lookupComp rest k

/-- Insert-or-replace for the competitors map. -/
def updateComp (m : List (ℤ × Competitor)) (k : ℤ) (c : Competitor) :
    List (ℤ × Competitor) :=
  match m with
  | [] => [(k, c)]
  | (k', c') :: rest =>
    if k = k' then (k', c) :: rest else (k', c') :: updateComp rest k c

/-- The mutable processing state of `main`: the competitors map and the
`startOrder` slice (which, in Go, receives a *copy* of the competitor record
at each `AssignedStartTime` event). -/
structure RaceState where
  competitors : List (ℤ × Competitor)
  startOrder : List Competitor
deriving Repr, DecidableEq

/-- The initial state of the event loop. -/
def initialState : RaceState := { competitors := [], startOrder := [] }

/-! ## The event loop (main.go lines 208-272)

One iteration of `for _, e := range events { comp := competitors[e.CompetitorID];
switch e.EventID { ... } }`.  `baseStart` is main's `baseStart` (the parsed
`cfg.Start`) and `delta` is main's `delta` (`parseDelta(cfg.StartDelta)`),
both computed before the loop.  Looking up an unregistered identifier yields
the nil pointer; the branches for event kinds 2, 4, 6, 7, 8, 9, 10 and 11
dereference it (kind 7 only reads `comp.LapsCompleted` for its narration),
which panics: the model returns `none` and, as in Go, the process dies with
no reported error.  Kinds 1, 3, 5 and the `default` branch never dereference
the record. -/

/-- The eleven `case` labels of the Go `switch` (constants `register` = 1 …
`comment` = 11) plus its `default`. -/
inductive EventKind where
  | register
  | startTime
  | startLine
  | isStarted
  | onTheFiringRange
  | hit
  | leftTheFiringRange
  | enteredThePenaltyLaps
  | leftThePenaltyLaps
  | endedTheMainLap
  | comment
  | other
deriving Repr, DecidableEq

/-- Dispatch of `switch e.EventID`. -/
def kindOf (n : ℤ) : EventKind :=
  if n = 1 then .register
  else if n = 2 then .startTime
  else if n = 3 then .startLine
  else if n = 4 then .isStarted
  else if n = 5 then .onTheFiringRange
  else if n = 6 then .hit
  else if n = 7 then .leftTheFiringRange
  else if n = 8 then .enteredThePenaltyLaps
  else if n = 9 then .leftThePenaltyLaps
  else if n = 10 then .endedTheMainLap
  else if n = 11 then .comment
  else .other

/-- One step of the race state machine. -/
def step (cfg : Config) (baseStart delta : ℤ) (st : RaceState) (e : Event) :
    Option RaceState :=
  let comp? := lookupComp st.competitors e.competitorID
  match kindOf e.eventID with
  | .register =>
    -- register: overwrite with a fresh record
    some { st with competitors :=
             updateComp st.competitors e.competitorID (freshCompetitor e.competitorID) }
  | .startTime =>
    -- startTime (AssignedStartTime)
    match comp? with
    | none => none
    | some comp =>
      let newStart := (goParseTimeLayout e.extra).getD 0
      let interval := startDeltaInterval cfg.startDelta
      let previous :=
        match st.startOrder.getLast? with
        | none => baseStart
        | some prevComp => prevComp.startTime
      let flagged := newStart - previous > interval
      let comp' := { comp with
                     startTime := newStart
                     isNotFinished := if flagged then true else comp.isNotFinished }
      some { competitors := updateComp st.competitors e.competitorID comp'
             startOrder := st.startOrder ++ [comp'] }
  | .startLine =>
    -- startLine: narration only
    some st
  | .isStarted =>
    -- isStarted (ActuallyStarted)
    match comp? with
    | none => none
    | some comp =>
      let allowed := comp.startTime + delta
      let comp' := { comp with
                     isNotFinished := if e.time > allowed then true else comp.isNotFinished
                     started := true }
      some { st with competitors := updateComp st.competitors e.competitorID comp' }
  | .onTheFiringRange =>
    -- onTheFiringRange: narration only
    some st
  | .hit =>
    -- hit
    match comp? with
    | none => none
    | some comp =>
      some { st with competitors :=
               updateComp st.competitors e.competitorID { comp with hits := comp.hits + 1 } }
  | .leftTheFiringRange =>
    -- leftTheFiringRange: narration reads comp.LapsCompleted, no mutation
    match comp? with
    | none => none
    | some _ => some st
  | .enteredThePenaltyLaps =>
    -- enteredThePenaltyLaps
    match comp? with
    | none => none
    | some comp =>
      some { st with competitors :=
               updateComp st.competitors e.competitorID { comp with startPenalty := e.time } }
  | .leftThePenaltyLaps =>
    -- leftThePenaltyLaps
    match comp? with
    | none => none
    | some comp =>
      let comp' := { comp with penaltyTimes := comp.penaltyTimes ++ [e.time - comp.startPenalty] }
      some { st with competitors := updateComp st.competitors e.competitorID comp' }
  | .endedTheMainLap =>
    -- endedTheMainLap
    match comp? with
    | none => none
    | some comp =>
      let c1 := { comp with lapsCompleted := comp.lapsCompleted + 1 }
      let c2 := if c1.lapTimes = [] ∧ c1.lapsCompleted = cfg.laps
                then { c1 with lapTimes := c1.lapTimes ++ [e.time - c1.startTime] }
                else c1
      some { st with competitors :=
               updateComp st.competitors e.competitorID { c2 with finishTime := e.time } }
  | .comment =>
    -- comment (withdrawal)
    match comp? with
    | none => none
    | some comp =>
      let c1 := if comp.lapsCompleted ≠ cfg.laps
                then { comp with lapTimes := comp.lapTimes ++ [e.time - comp.startTime] }
                else comp
      some { st with competitors :=
               updateComp st.competitors e.competitorID { c1 with isDisqualified := true } }
  | .other =>
    -- default: "Unknown EventId" warning, no mutation
    some st

/-- The whole event loop over an already-sorted event sequence. -/
def runEvents (cfg : Config) (baseStart delta : ℤ) (events : List Event) :
    Option RaceState :=
  events.foldlM (step cfg baseStart delta) initialState

/-! ## Result finalization (main.go lines 135-175) -/

/-- The status a result line reports: the bracketed tags, or the elapsed
`FinishTime - StartTime` that `printResults` renders for a finisher. -/
inductive StatusTag where
  | notFinished
  | notStarted
  | finished (elapsed : ℤ)
  | unknown
deriving Repr, DecidableEq

/-- The status derivation of `printResults` (lines 138-147): the nested
conditionals on `FinishTime.Equal(time.Time{})`, `isDisqualified`,
`LapsCompleted != cfg.Laps`, `isNotFinished`, `Started`. -/
def statusOf (cfg : Config) (c : Competitor) : StatusTag :=
  if c.finishTime = 0 ∨ c.isDisqualified ∨ c.lapsCompleted ≠ cfg.laps then
    .notFinished
  else if c.isNotFinished then
    .notStarted
  else if c.started then
    .finished (c.finishTime - c.startTime)
  else
    .unknown

/-! ## Spec-level reference values

The specification (§3, §6, §8) defines the configured `startInterval` as the
start-delta string `HH:MM:SS[.mmm]` read as an exact duration. -/

/-- Modelled from the spec: "a duration equal to `H` hours + `M` minutes +
`S` seconds + `mmm` milliseconds" (§8), the exact value of a
`HH:MM:SS.mmm` start-delta string, in nanoseconds.  Used to compare the
program's two parsed intervals against the specified one. -/
def specDurationNs (h m s ms : ℕ) : ℤ :=
  (h : ℤ) * 3600000000000 + (m : ℤ) * 60000000000 + (s : ℤ) * 1000000000 +
    (ms : ℤ) * 1000000

/-! ## Rendered component strings

Helpers that build the digit strings quantified over by the parsing claims. -/

/-- A two-digit zero-padded decimal rendering. -/
def pad2 (n : ℕ) : List Char := [Char.ofNat (48 + n / 10), Char.ofNat (48 + n % 10)]

/-- A three-digit zero-padded decimal rendering. -/
def pad3 (n : ℕ) : List Char :=
  [Char.ofNat (48 + n / 100), Char.ofNat (48 + n / 10 % 10), Char.ofNat (48 + n % 10)]

/-- Renders `HH:MM:SS`. -/
def renderHMS (h m s : ℕ) : List Char := pad2 h ++ ':' :: pad2 m ++ ':' :: pad2 s

/-- Renders `HH:MM:SS.mmm`. -/
def renderHMSms (h m s ms : ℕ) : List Char := renderHMS h m s ++ '.' :: pad3 ms

/-! ## Concrete inputs used by the evaluation theorems -/

/-- A time-of-day in the `Int` `time.Time` model (year 0, January 1). -/
def todTime (h m s ms : ℕ) : ℤ :=
  ((h : ℤ) * 3600 + (m : ℤ) * 60 + (s : ℤ)) * 1000000000 + (ms : ℤ) * 1000000 -
    yearZeroGap

/-- A structured event built directly (as the loop receives it). -/
def mkEvent (t : ℤ) (eid cid : ℤ) (extra : List Char) : Event :=
  { time := t, rawTime := [], eventID := eid, competitorID := cid, extra := extra }

/-- The configuration of the §8 scenario: laps=2, lapLen=3500,
penaltyLen=150, start `10:00:00.000`, startDelta `00:01:30`. -/
def exCfg : Config :=
  { laps := 2, lapLen := 3500, penaltyLen := 150, firingLines := 1
    start := "10:00:00.000".toList, startDelta := "00:01:30".toList }

/-- main's `baseStart` for `exCfg`. -/
def exBase : ℤ := (goParseTimeLayout exCfg.start).getD 0

/-- main's `delta` for `exCfg`. -/
def exDelta : ℤ := (parseDelta exCfg.startDelta).getD 0

/-- The event parsed from the line `[10:00:00.000] 6 1`: a `Hit` for
competitor 1, who was never registered. -/
def c2HitEvent : Event :=
  { time := todTime 10 0 0 0, rawTime := "10:00:00.000".toList
    eventID := 6, competitorID := 1, extra := [] }

/-- An `OnStartLine` event for an unregistered competitor. -/
def c2StartLineEvent : Event := mkEvent (todTime 10 0 0 0) 3 1 []

/-- Variant of `exCfg` with the start delta `00:00:01.130`, whose exact duration is
1.130 s but whose `parseDelta` value is 1.129 s. -/
def c5Cfg : Config := { exCfg with startDelta := "00:00:01.130".toList }

/-- main's `delta` for `c5Cfg`. -/
def c5Delta : ℤ := (parseDelta c5Cfg.startDelta).getD 0

/-- Register, assign scheduled start `10:00:00.000`, then `ActuallyStarted`
at `10:00:01.130` — exactly `scheduledStartTime + startInterval` for the
spec-level interval of `c5Cfg`. -/
def c5Events : List Event :=
  [ mkEvent (todTime 9 0 0 0) 1 1 [],
    mkEvent (todTime 9 5 0 0) 2 1 ("10:00:00.000".toList),
    mkEvent (todTime 10 0 1 130) 4 1 [] ]

/-- Register competitor 1, then a `LeftPenaltyLaps` with no prior
`EnteredPenaltyLaps`. -/
def c6Events : List Event :=
  [ mkEvent (todTime 10 0 0 0) 1 1 [],
    mkEvent (todTime 10 1 0 0) 9 1 [] ]

/-- Register competitor 1, disqualify them (`Comment`), then re-register. -/
def c7Events : List Event :=
  [ mkEvent (todTime 10 0 0 0) 1 1 [],
    mkEvent (todTime 10 1 0 0) 11 1 ("sick".toList),
    mkEvent (todTime 10 2 0 0) 1 1 [] ]

/-! ## Go `sort.Slice` — pdqsort (main.go lines 201-203)

`main` sorts the events with
`sort.Slice(events, func(i, j int) bool { return events[i].Time.Before(events[j].Time) })`.
Since Go 1.19, `sort.Slice` runs pattern-defeating quicksort: this section is
a faithful port of the Go standard library's `pdqsort_func` and its helpers
(`insertionSort_func`, `partialInsertionSort_func` — named `partInsSortF`
here — `choosePivot_func`, `medianAdjacent_func`, `median_func`,
`order2_func`, `reverseRange_func`, `breakPatterns_func` with its `xorshift`
generator, `partition_func`, `partitionEqual_func`, `heapSort_func`), with
every Go loop expressed as structural recursion on a fuel argument large
enough for any terminating run (the entry point passes `length + 64`).
Out-of-range array reads return a default element; they never occur on the
index patterns pdqsort generates. -/

/-- Default element for out-of-range reads (never reached). -/
def defaultEvent : Event :=
  { time := 0, rawTime := [], eventID := 0, competitorID := 0, extra := [] }

/-- Indexed read. -/
def aget (a : Array Event) (i : ℕ) : Event := (a.get? i).getD defaultEvent

/-- Go `data.Swap(i, j)`. -/
def aswap (a : Array Event) (i j : ℕ) : Array Event :=
  let vi := aget a i
  let vj := aget a j
  (a.setD i vj).setD j vi

/-- Go `data.Less(i, j)`: `events[i].Time.Before(events[j].Time)`. -/
def lessE (a : Array Event) (i j : ℕ) : Bool :=
  decide ((aget a i).time < (aget a j).time)

/-- Inner loop of insertion sort: `for j := i; j > a && Less(j, j-1); j--`. -/
def insInner (a : ℕ) : Array Event → ℕ → Array Event
  | arr, 0 => arr
  | arr, j + 1 =>
    if a ≤ j ∧ lessE arr (j + 1) j then insInner a (aswap arr (j + 1) j) j else arr

/-- Outer loop of insertion sort. -/
def insFrom (a b : ℕ) : ℕ → Array Event → ℕ → Array Event
  | 0, arr, _ => arr
  | fuel + 1, arr, i => if i < b then insFrom a b fuel (insInner a arr i) (i + 1) else arr

/-- Go `insertionSort_func(data, a, b)`. -/
def insertionSortF (arr : Array Event) (a b : ℕ) : Array Event :=
  insFrom a b (b + 1) arr (a + 1)

/-- The forward scan `for i < b && !Less(i, i-1) { i++ }`. -/
def pisScan (b : ℕ) : ℕ → Array Event → ℕ → ℕ
  | 0, _, i => i
  | fuel + 1, arr, i =>
    if i < b ∧ ¬ lessE arr i (i - 1) then pisScan b fuel arr (i + 1) else i

/-- Go loop `for j := i - 1; j >= 1; j-- { if !Less(j, j-1) break; Swap(j, j-1) }`. -/
def shiftLeftF : Array Event → ℕ → Array Event
  | arr, 0 => arr
  | arr, j + 1 =>
    if lessE arr (j + 1) j then shiftLeftF (aswap arr (j + 1) j) j else arr

/-- Go loop `for j := i + 1; j < b; j++ { if !Less(j, j-1) break; Swap(j, j-1) }`. -/
def shiftRightF (b : ℕ) : ℕ → Array Event → ℕ → Array Event
  | 0, arr, _ => arr
  | fuel + 1, arr, j =>
    if j < b ∧ lessE arr j (j - 1) then shiftRightF b fuel (aswap arr j (j - 1)) (j + 1)
    else arr

/-- The `maxSteps` loop of the Go partial insertion sort. -/
def pisGo (a b : ℕ) : ℕ → Array Event → ℕ → Array Event × Bool
  | 0, arr, _ => (arr, false)
  | steps + 1, arr, i =>
    let i2 := pisScan b (b + 1) arr i
    if i2 = b then (arr, true)
    else if b - a < 50 then (arr, false)
    else
      let arr1 := aswap arr i2 (i2 - 1)
      let arr2 := if 2 ≤ i2 - a then shiftLeftF arr1 (i2 - 1) else arr1
      let arr3 := if 2 ≤ b - i2 then shiftRightF b (b + 1) arr2 (i2 + 1) else arr2
      pisGo a b steps arr3 i2

/-- Go `partialInsertionSort_func(data, a, b)` (maxSteps = 5,
shortestShifting = 50). -/
def partInsSortF (arr : Array Event) (a b : ℕ) : Array Event × Bool :=
  pisGo a b 5 arr (a + 1)

/-- Go `order2_func`: order two indices, counting swaps. -/
def order2F (arr : Array Event) (a b swaps : ℕ) : ℕ × ℕ × ℕ :=
  if lessE arr b a then (b, a, swaps + 1) else (a, b, swaps)

/-- Go `median_func`: index of the median of three, counting swaps. -/
def medianF (arr : Array Event) (a b c swaps : ℕ) : ℕ × ℕ :=
  let (a1, b1, s1) := order2F arr a b swaps
  let (b2, _, s2) := order2F arr b1 c s1
  let (_, b3, s3) := order2F arr a1 b2 s2
  (b3, s3)

/-- Go `medianAdjacent_func`. -/
def medianAdjF (arr : Array Event) (a swaps : ℕ) : ℕ × ℕ :=
  medianF arr (a - 1) a (a + 1) swaps

/-- The three sortedness hints of the Go pdqsort. -/
inductive SortHint where
  | inc
  | dec
  | unk
deriving Repr, DecidableEq

/-- Go `choosePivot_func` (shortestNinther = 50, maxSwaps = 12). -/
def choosePivotF (arr : Array Event) (a b : ℕ) : ℕ × SortHint :=
  let l := b - a
  let i0 := a + l / 4 * 1
  let j0 := a + l / 4 * 2
  let k0 := a + l / 4 * 3
  if 8 ≤ l then
    if 50 ≤ l then
      let (i1, s1) := medianAdjF arr i0 0
      let (j1, s2) := medianAdjF arr j0 s1
      let (k1, s3) := medianAdjF arr k0 s2
      let (j2, s4) := medianF arr i1 j1 k1 s3
      (j2, if s4 = 0 then .inc else if s4 = 12 then .dec else .unk)
    else
      let (j2, s4) := medianF arr i0 j0 k0 0
      (j2, if s4 = 0 then .inc else if s4 = 12 then .dec else .unk)
  else
    (j0, .inc)

/-- Go `reverseRange_func` loop. -/
def revGo : ℕ → Array Event → ℕ → ℕ → Array Event
  | 0, arr, _, _ => arr
  | fuel + 1, arr, i, j => if i < j then revGo fuel (aswap arr i j) (i + 1) (j - 1) else arr

/-- Go `reverseRange_func(data, a, b)`. -/
def reverseRangeF (arr : Array Event) (a b : ℕ) : Array Event :=
  revGo (b + 1) arr a (b - 1)

/-- Go loop `for i <= j && Less(i, a) { i++ }`. -/
def scanILess (aIdx : ℕ) : ℕ → Array Event → ℕ → ℕ → ℕ
  | 0, _, i, _ => i
  | fuel + 1, arr, i, j =>
    if i ≤ j ∧ lessE arr i aIdx then scanILess aIdx fuel arr (i + 1) j else i

/-- Go loop `for i <= j && !Less(j, a) { j-- }`. -/
def scanJNotLess (aIdx : ℕ) : ℕ → Array Event → ℕ → ℕ → ℕ
  | 0, _, _, j => j
  | fuel + 1, arr, i, j =>
    if i ≤ j ∧ ¬ lessE arr j aIdx then scanJNotLess aIdx fuel arr i (j - 1) else j

/-- The second-stage loop of `partition_func`. -/
def partLoop (aIdx b : ℕ) : ℕ → Array Event → ℕ → ℕ → Array Event × ℕ
  | 0, arr, _, j => (arr, j)
  | fuel + 1, arr, i, j =>
    let i2 := scanILess aIdx (b + 1) arr i j
    let j2 := scanJNotLess aIdx (b + 1) arr i2 j
    if j2 < i2 then (arr, j2)
    else partLoop aIdx b fuel (aswap arr i2 j2) (i2 + 1) (j2 - 1)

/-- Go `partition_func(data, a, b, pivot) -> (newpivot, alreadyPartitioned)`. -/
def partitionF (arr0 : Array Event) (a b pivot : ℕ) : Array Event × ℕ × Bool :=
  let arr := aswap arr0 a pivot
  let i0 := a + 1
  let j0 := b - 1
  let i1 := scanILess a (b + 1) arr i0 j0
  let j1 := scanJNotLess a (b + 1) arr i1 j0
  if j1 < i1 then (aswap arr j1 a, j1, true)
  else
    let arr1 := aswap arr i1 j1
    let (arr2, j2) := partLoop a b (b + 1) arr1 (i1 + 1) (j1 - 1)
    (aswap arr2 j2 a, j2, false)

/-- Go loop `for i <= j && !Less(a, i) { i++ }`. -/
def scanINotLessA (aIdx : ℕ) : ℕ → Array Event → ℕ → ℕ → ℕ
  | 0, _, i, _ => i
  | fuel + 1, arr, i, j =>
    if i ≤ j ∧ ¬ lessE arr aIdx i then scanINotLessA aIdx fuel arr (i + 1) j else i

/-- Go loop `for i <= j && Less(a, j) { j-- }`. -/
def scanJLessA (aIdx : ℕ) : ℕ → Array Event → ℕ → ℕ → ℕ
  | 0, _, _, j => j
  | fuel + 1, arr, i, j =>
    if i ≤ j ∧ lessE arr aIdx j then scanJLessA aIdx fuel arr i (j - 1) else j

/-- The loop of `partitionEqual_func`. -/
def peqLoop (aIdx b : ℕ) : ℕ → Array Event → ℕ → ℕ → Array Event × ℕ
  | 0, arr, i, _ => (arr, i)
  | fuel + 1, arr, i, j =>
    let i2 := scanINotLessA aIdx (b + 1) arr i j
    let j2 := scanJLessA aIdx (b + 1) arr i2 j
    if j2 < i2 then (arr, i2)
    else peqLoop aIdx b fuel (aswap arr i2 j2) (i2 + 1) (j2 - 1)

/-- Go `partitionEqual_func(data, a, b, pivot) -> newpivot`. -/
def partitionEqualF (arr0 : Array Event) (a b pivot : ℕ) : Array Event × ℕ :=
  let arr := aswap arr0 a pivot
  peqLoop a b (b + 1) arr (a + 1) (b - 1)

/-- One step of the Go `xorshift` generator on `uint64`. -/
def xorshiftNext (r : ℕ) : ℕ :=
  let mask : ℕ := 18446744073709551615
  let r1 := r ^^^ ((r <<< 13) &&& mask)
  let r2 := r1 ^^^ (r1 >>> 7)
  r2 ^^^ ((r2 <<< 17) &&& mask)

/-- Go `bits.Len`. -/
def bitsLen (n : ℕ) : ℕ := if n = 0 then 0 else log2N n + 1

/-- Go `breakPatterns_func`: three pseudo-random swaps around the midpoint,
seeded with the range length. -/
def breakPatternsF (arr0 : Array Event) (a b : ℕ) : Array Event :=
  let l := b - a
  if 8 ≤ l then
    let modulus := 2 ^ bitsLen l
    let idx := a + l / 4 * 2 - 1
    let r1 := xorshiftNext l
    let o1 := let o := r1 &&& (modulus - 1); if o ≥ l then o - l else o
    let arr1 := aswap arr0 (idx - 1 + 0) (a + o1)
    let r2 := xorshiftNext r1
    let o2 := let o := r2 &&& (modulus - 1); if o ≥ l then o - l else o
    let arr2 := aswap arr1 (idx - 1 + 1) (a + o2)
    let r3 := xorshiftNext r2
    let o3 := let o := r3 &&& (modulus - 1); if o ≥ l then o - l else o
    aswap arr2 (idx - 1 + 2) (a + o3)
  else arr0

/-- Go `siftDown_func(data, root, hi, first)`. -/
def siftDownF (first : ℕ) : ℕ → Array Event → ℕ → ℕ → Array Event
  | 0, arr, _, _ => arr
  | fuel + 1, arr, root, hi =>
    let child0 := 2 * root + 1
    if hi ≤ child0 then arr
    else
      let child := if child0 + 1 < hi ∧ lessE arr (first + child0) (first + child0 + 1)
                   then child0 + 1 else child0
      if ¬ lessE arr (first + root) (first + child) then arr
      else siftDownF first fuel (aswap arr (first + root) (first + child)) child hi

/-- Heap construction: `for i := (hi-1)/2; i >= 0; i--`. -/
def hsBuild (first hi : ℕ) : ℕ → Array Event → Array Event
  | 0, arr => arr
  | c + 1, arr => hsBuild first hi c (siftDownF first (hi + 1) arr c hi)

/-- Heap extraction: `for i := hi - 1; i >= 1; i--`. -/
def hsExtract (first : ℕ) : ℕ → Array Event → Array Event
  | 0, arr => arr
  | i + 1, arr =>
    let arr1 := aswap arr first (first + (i + 1))
    let arr2 := siftDownF first (i + 2) arr1 0 (i + 1)
    hsExtract first i arr2

/-- Go `heapSort_func(data, a, b)`. -/
def heapSortF (arr : Array Event) (a b : ℕ) : Array Event :=
  let first := a
  let hi := b - a
  hsExtract first (hi - 1) (hsBuild first hi ((hi - 1) / 2 + 1) arr)

/-- Go `pdqsort_func(data, a, b, limit)`, with `wasBalanced`/`wasPartitioned`
as loop-carried arguments (a fresh invocation starts them at `true`;
the loop continuations become tail calls). -/
def pdqsortGo : ℕ → Array Event → ℕ → ℕ → ℕ → Bool → Bool → Array Event
  | 0, arr, _, _, _, _, _ => arr
  | fuel + 1, arr, a, b, limit, wasBalanced, wasPartitioned =>
    let length := b - a
    if length ≤ 12 then insertionSortF arr a b
    else if limit = 0 then heapSortF arr a b
    else
      let arr1 := if ¬ wasBalanced then breakPatternsF arr a b else arr
      let limit1 := if ¬ wasBalanced then limit - 1 else limit
      let (pivot0, hint0) := choosePivotF arr1 a b
      let arr2 := if hint0 = .dec then reverseRangeF arr1 a b else arr1
      let pivot1 := if hint0 = .dec then (b - 1) - (pivot0 - a) else pivot0
      let hint1 := if hint0 = .dec then SortHint.inc else hint0
      if wasBalanced ∧ wasPartitioned ∧ hint1 = .inc then
        match partInsSortF arr2 a b with
        | (arr3, true) => arr3
        | (arr3, false) =>
          if 0 < a ∧ ¬ lessE arr3 (a - 1) pivot1 then
            let (arr4, mid) := partitionEqualF arr3 a b pivot1
            pdqsortGo fuel arr4 mid b limit1 wasBalanced wasPartitioned
          else
            let (arr4, mid, already) := partitionF arr3 a b pivot1
            let balanced := decide (length / 8 ≤ min (mid - a) (b - mid))
            if mid - a < b - mid then
              let arr5 := pdqsortGo fuel arr4 a mid limit1 true true
              pdqsortGo fuel arr5 (mid + 1) b limit1 balanced already
            else
              let arr5 := pdqsortGo fuel arr4 (mid + 1) b limit1 true true
              pdqsortGo fuel arr5 a mid limit1 balanced already
      else
        if 0 < a ∧ ¬ lessE arr2 (a - 1) pivot1 then
          let (arr4, mid) := partitionEqualF arr2 a b pivot1
          pdqsortGo fuel arr4 mid b limit1 wasBalanced wasPartitioned
        else
          let (arr4, mid, already) := partitionF arr2 a b pivot1
          let balanced := decide (length / 8 ≤ min (mid - a) (b - mid))
          if mid - a < b - mid then
            let arr5 := pdqsortGo fuel arr4 a mid limit1 true true
            pdqsortGo fuel arr5 (mid + 1) b limit1 balanced already
          else
            let arr5 := pdqsortGo fuel arr4 (mid + 1) b limit1 true true
            pdqsortGo fuel arr5 a mid limit1 balanced already

/-- Go `sort.Slice(events, …Time.Before…)`: `limit := bits.Len(uint(length))`,
then `pdqsort_func(data, 0, length, limit)`. -/
def sortSliceEvents (events : List Event) : List Event :=
  let arr := events.toArray
  let limit := bitsLen events.length
  (pdqsortGo (events.length + 64) arr 0 events.length limit true true).toList

/-- Thirteen events: the first carries the latest timestamp, the remaining
twelve (competitors 1 through 12, in that input order) share one identical
timestamp. -/
def c8Events : List Event :=
  mkEvent (todTime 10 0 1 0) 3 0 [] ::
    (List.range 12).map (fun i => mkEvent (todTime 10 0 0 0) 3 ((i : ℤ) + 1) [])

/-! ## Helper lemmas -/

theorem lookupComp_updateComp_self (m : List (ℤ × Competitor)) (k : ℤ) (c : Competitor) :
    lookupComp (updateComp m k c) k = some c := by
  induction m with
  | nil => simp [updateComp, lookupComp]
  | cons hd tl ih =>
    obtain ⟨k', c'⟩ := hd
    by_cases h : k = k' <;> simp [updateComp, lookupComp, h, ih]

theorem lookupComp_updateComp_ne (m : List (ℤ × Competitor)) (k k' : ℤ) (c : Competitor)
    (h : k' ≠ k) : lookupComp (updateComp m k c) k' = lookupComp m k' := by
  induction m with
  | nil => simp [updateComp, lookupComp, h]
  | cons hd tl ih =>
    obtain ⟨k0, c0⟩ := hd
    by_cases hk : k = k0
    · subst hk
      simp [updateComp, lookupComp, h]
    · by_cases hk' : k' = k0 <;> simp [updateComp, lookupComp, hk, hk', ih]

set_option maxHeartbeats 2000000 in
theorem kindOf_eq_register (n : ℤ) : kindOf n = .register ↔ n = 1 := by
  constructor
  · intro h
    by_contra hn
    rw [kindOf, if_neg hn] at h
    split_ifs at h <;> exact EventKind.noConfusion h
  · intro h
    subst h
    rfl

theorem digitChar_isDigit : ∀ d : ℕ, d < 10 → (Char.ofNat (48 + d)).isDigit = true := by
  decide

theorem digitChar_val : ∀ d : ℕ, d < 10 → digitVal (Char.ofNat (48 + d)) = d := by
  decide

theorem digitChar_ne_colon : ∀ d : ℕ, d < 10 → ¬(Char.ofNat (48 + d) = ':') := by
  decide

theorem pad2_sep_free (n : ℕ) (hn : n < 100) : ∀ c ∈ pad2 n, ¬(c = ':') := by
  intro c hc
  simp only [pad2, List.mem_cons, List.mem_singleton, List.not_mem_nil, or_false] at hc
  rcases hc with rfl | rfl
  · exact digitChar_ne_colon _ (by omega)
  · exact digitChar_ne_colon _ (by omega)

theorem getnum2_pad2 (n : ℕ) (hn : n < 100) (rest : List Char) :
    getnum2 (pad2 n ++ rest) = some (n, rest) := by
  have h1 : n / 10 < 10 := by omega
  have h2 : n % 10 < 10 := by omega
  simp only [pad2, List.cons_append, List.nil_append, getnum2,
    digitChar_isDigit _ h1, digitChar_isDigit _ h2, digitChar_val _ h1, digitChar_val _ h2,
    if_true]
  norm_num
  omega

theorem getnumFixed2_pad2 (n : ℕ) (hn : n < 100) (rest : List Char) :
    getnumFixed2 (pad2 n ++ rest) = some (n, rest) := by
  have h1 : n / 10 < 10 := by omega
  have h2 : n % 10 < 10 := by omega
  simp only [pad2, List.cons_append, List.nil_append, getnumFixed2,
    digitChar_isDigit _ h1, digitChar_isDigit _ h2, digitChar_val _ h1, digitChar_val _ h2]
  norm_num
  omega

theorem parseHMSCore_render (h m s : ℕ) (hh : h < 24) (hm : m < 60) (hs : s < 60)
    (rest : List Char) :
    parseHMSCore (renderHMS h m s ++ rest) = some (h * 3600 + m * 60 + s, rest) := by
  have hrw : renderHMS h m s ++ rest =
      pad2 h ++ (':' :: (pad2 m ++ (':' :: (pad2 s ++ rest)))) := by
    simp [renderHMS]
  rw [hrw]
  simp [parseHMSCore, getnum2_pad2 h (by omega), expectChar,
    getnumFixed2_pad2 m (by omega), getnumFixed2_pad2 s (by omega), hh, hm, hs]

theorem takeDigitRun_pad3 (n : ℕ) (hn : n < 1000) :
    takeDigitRun (pad3 n) = (pad3 n, []) := by
  have h1 : n / 100 < 10 := by omega
  have h2 : n / 10 % 10 < 10 := by omega
  have h3 : n % 10 < 10 := by omega
  simp [takeDigitRun, pad3, digitChar_isDigit _ h1, digitChar_isDigit _ h2,
    digitChar_isDigit _ h3]

theorem digitsVal_pad3 (n : ℕ) (hn : n < 1000) : digitsVal (pad3 n) = n := by
  have h1 : n / 100 < 10 := by omega
  have h2 : n / 10 % 10 < 10 := by omega
  have h3 : n % 10 < 10 := by omega
  simp only [digitsVal, pad3, List.foldl_cons, List.foldl_nil,
    digitChar_val _ h1, digitChar_val _ h2, digitChar_val _ h3]
  omega

theorem goParseHMSDay_renderHMS (h m s : ℕ) (hh : h < 24) (hm : m < 60) (hs : s < 60) :
    goParseHMSDay (renderHMS h m s) =
      some (((h : ℤ) * 3600 + (m : ℤ) * 60 + (s : ℤ)) * 1000000000) := by
  have hcore := parseHMSCore_render h m s hh hm hs []
  rw [List.append_nil] at hcore
  simp only [goParseHMSDay, hcore, Option.bind_eq_bind, Option.some_bind]
  push_cast
  ring_nf

theorem goParseHMSDay_renderHMSms (h m s ms : ℕ) (hh : h < 24) (hm : m < 60)
    (hs : s < 60) (hms : ms < 1000) :
    goParseHMSDay (renderHMSms h m s ms) =
      some (((h : ℤ) * 3600 + (m : ℤ) * 60 + (s : ℤ)) * 1000000000 +
            (ms : ℤ) * 1000000) := by
  have hcore := parseHMSCore_render h m s hh hm hs ('.' :: pad3 ms)
  simp only [renderHMSms, hcore, goParseHMSDay, Option.bind_eq_bind, Option.some_bind,
    takeDigitRun_pad3 ms hms]
  have hne : pad3 ms ≠ [] := by simp [pad3]
  have hlen : (pad3 ms).length = 3 := by simp [pad3]
  simp only [hne, hlen, digitsVal_pad3 ms hms]
  rw [if_pos ⟨hne, by norm_num, trivial⟩]
  norm_num

theorem splitOnChar_ne_nil (sep : Char) (l : List Char) : splitOnChar sep l ≠ [] := by
  cases l with
  | nil => simp [splitOnChar]
  | cons c cs =>
    simp only [splitOnChar]
    rcases hsp : splitOnChar sep cs with _ | ⟨r, rs⟩
    · simp
    · by_cases hc : c = sep <;> simp [hc]

theorem splitOnChar_sep_free (sep : Char) (l rest : List Char)
    (hfree : ∀ c ∈ l, ¬(c = sep)) :
    splitOnChar sep (l ++ rest) =
      (l ++ (splitOnChar sep rest).headI) :: (splitOnChar sep rest).tail := by
  induction l with
  | nil =>
    simp only [List.nil_append]
    rcases hsp : splitOnChar sep rest with _ | ⟨r, rs⟩
    · exact absurd hsp (splitOnChar_ne_nil sep rest)
    · simp
  | cons c cs ih =>
    have hc : ¬(c = sep) := hfree c (List.mem_cons_self c cs)
    have ih2 := ih (fun c2 hc2 => hfree c2 (List.mem_cons_of_mem c hc2))
    simp only [List.cons_append, splitOnChar, List.append_eq, ih2]
    simp [hc]

theorem splitOnChar_cons_sep (sep : Char) (l : List Char) :
    splitOnChar sep (sep :: l) = [] :: splitOnChar sep l := by
  simp only [splitOnChar]
  rcases hsp : splitOnChar sep l with _ | ⟨r, rs⟩
  · exact absurd hsp (splitOnChar_ne_nil sep l)
  · simp

theorem splitOnChar_renderHMS (h m s : ℕ) (hh : h < 100) (hm : m < 100) (hs : s < 100) :
    splitOnChar ':' (renderHMS h m s) = [pad2 h, pad2 m, pad2 s] := by
  have e1 : renderHMS h m s = pad2 h ++ (':' :: (pad2 m ++ (':' :: (pad2 s ++ [])))) := by
    simp [renderHMS]
  rw [e1, splitOnChar_sep_free ':' _ _ (pad2_sep_free h hh),
    splitOnChar_cons_sep, splitOnChar_sep_free ':' _ _ (pad2_sep_free m hm),
    splitOnChar_cons_sep, splitOnChar_sep_free ':' _ _ (pad2_sep_free s hs)]
  simp [splitOnChar]

theorem atoiModel_two_digits : ∀ a : ℕ, a < 10 → ∀ b : ℕ, b < 10 →
    atoiModel [Char.ofNat (48 + a), Char.ofNat (48 + b)] = some ((10 * a + b : ℕ) : ℤ) := by
  decide

theorem atoiModel_pad2 (n : ℕ) (hn : n < 100) : atoiModel (pad2 n) = some (n : ℤ) := by
  have := atoiModel_two_digits (n / 10) (by omega) (n % 10) (by omega)
  rw [pad2, this]
  congr 1
  push_cast
  omega

set_option maxRecDepth 100000 in
set_option maxHeartbeats 2000000 in
theorem parseDelta_sec_pipeline : ∀ s : ℕ, s < 100 →
    truncQ ((parseFloatModel (pad2 s)).getD (fracOfInt 0)) = (s : ℤ) ∧
    truncQ (roundQ (fracMulInt (roundQ (fracSub
        ((parseFloatModel (pad2 s)).getD (fracOfInt 0))
        (roundQ (fracOfInt (s : ℤ))))) 1000)) = 0 := by
  decide

/-! ## Claim theorems -/

/-- C1: for every competitor record in the final registry, the Result
Finalizer assigns the status tag by this exact first-match precedence:
DidNotFinish (`[NotFinished]`) if finishTime is unset, or disqualified is
true, or lapsCompleted differs from the configured lap count; otherwise
DidNotStart (`[NotStarted]`) if notStartedFlag is true; otherwise Finished,
displayed as the elapsed time finishTime minus scheduledStartTime, if
started is true; otherwise Unknown (`[Unknown]`). -/
theorem c1_status_precedence (cfg : Config) (c : Competitor) :
    (c.finishTime = 0 ∨ c.isDisqualified = true ∨ c.lapsCompleted ≠ cfg.laps →
        statusOf cfg c = .notFinished) ∧
    (¬(c.finishTime = 0 ∨ c.isDisqualified = true ∨ c.lapsCompleted ≠ cfg.laps) →
        c.isNotFinished = true → statusOf cfg c = .notStarted) ∧
    (¬(c.finishTime = 0 ∨ c.isDisqualified = true ∨ c.lapsCompleted ≠ cfg.laps) →
        c.isNotFinished = false → c.started = true →
        statusOf cfg c = .finished (c.finishTime - c.startTime)) ∧
    (¬(c.finishTime = 0 ∨ c.isDisqualified = true ∨ c.lapsCompleted ≠ cfg.laps) →
        c.isNotFinished = false → c.started = false → statusOf cfg c = .unknown) := by
  refine ⟨fun h1 => ?_, fun h1 h2 => ?_, fun h1 h2 h3 => ?_, fun h1 h2 h3 => ?_⟩ <;>
    simp [statusOf, h1, *]

/-- Witness for C1 at concrete records: a zero-valued record is
`[NotFinished]`; the §8 scenario's finisher shows elapsed 10 minutes. -/
theorem c1_status_precedence_witness :
    statusOf exCfg (freshCompetitor 1) = .notFinished ∧
    statusOf exCfg
      { id := 1, started := true, lapsCompleted := 2, hits := 1
        isDisqualified := false, isNotFinished := false
        startTime := todTime 10 0 0 0, finishTime := todTime 10 10 0 0
        startPenalty := 0, lapTimes := [600000000000], penaltyTimes := [] } =
      .finished 600000000000 := by
  constructor
  · exact (c1_status_precedence exCfg (freshCompetitor 1)).1 (Or.inl rfl)
  · have h := (c1_status_precedence exCfg
      { id := 1, started := true, lapsCompleted := 2, hits := 1
        isDisqualified := false, isNotFinished := false
        startTime := todTime 10 0 0 0, finishTime := todTime 10 10 0 0
        startPenalty := 0, lapTimes := [600000000000], penaltyTimes := [] }).2.2.1
      (by decide) rfl rfl
    simpa using h

/-- C2 (code bug): processing a non-Register event for an unregistered
identifier does not yield a reported error.  A `Hit` line for the
unregistered competitor 1 parses fine, and running it dereferences the nil
map entry: the model's `none` is the Go nil-pointer panic — the process
crashes with no reported error.  An `OnStartLine` event for an unregistered
identifier is the other violation mode: it is narrated and silently skipped
(no record created, no error). -/
theorem c2_unregistered_reference_crashes :
    parseEvent ("[10:00:00.000] 6 1".toList) = some c2HitEvent ∧
    runEvents exCfg exBase exDelta [c2HitEvent] = none ∧
    runEvents exCfg exBase exDelta [c2StartLineEvent] = some initialState := by
  refine ⟨?_, rfl, rfl⟩
  rfl

/-- C6 (code bug): a `LeftPenaltyLaps` with no prior `EnteredPenaltyLaps`
does not produce an error: the run succeeds and silently appends
`event.timestamp − zero time.Time` (the event's time-of-day minus 366 days,
a garbage negative duration of about minus one year) to penaltyDurations. -/
theorem c6_missing_penalty_segment_silent :
    ((runEvents exCfg exBase exDelta c6Events).bind
        (fun st => lookupComp st.competitors 1)).map Competitor.penaltyTimes =
      some [todTime 10 1 0 0 - 0] ∧
    todTime 10 1 0 0 - 0 < 0 := by
  exact ⟨rfl, by decide⟩

/-- C5 counterexample: with startDelta `00:00:01.130` the configured
startInterval (§3, §6, §8: the string read as an exact duration) is
1.130 s, but `parseDelta` computes 1.129 s through float64 truncation.  An
`ActuallyStarted` at exactly `scheduledStartTime + startInterval`
(`10:00:01.130` for a 10:00:00.000 scheduled start) is *at* the allowed
time, so the claim says notStartedFlag stays unchanged (false) — yet the
code sets it. -/
theorem c5_late_start_counterexample :
    specDurationNs 0 0 1 130 = 1130000000 ∧
    parseDelta c5Cfg.startDelta = some 1129000000 ∧
    (c5Events.get ⟨2, by decide⟩).time = todTime 10 0 0 0 + specDurationNs 0 0 1 130 ∧
    ((runEvents c5Cfg exBase c5Delta c5Events).bind
        (fun st => lookupComp st.competitors 1)).map Competitor.isNotFinished =
      some true := by
  exact ⟨rfl, rfl, by decide, rfl⟩

/-- C7 counterexample: competitor 1 is disqualified by a Comment event, but
a subsequent Register event for the same identifier overwrites the record,
and the registry then reports the competitor as not disqualified. -/
theorem c7_reregistration_clears_disqualified :
    ((runEvents exCfg exBase exDelta (c7Events.take 2)).bind
        (fun st => lookupComp st.competitors 1)).map Competitor.isDisqualified =
      some true ∧
    ((runEvents exCfg exBase exDelta c7Events).bind
        (fun st => lookupComp st.competitors 1)).map Competitor.isDisqualified =
      some false := by
  exact ⟨rfl, rfl⟩

/-- C9 counterexample: `parseDelta` ignores the `Atoi`/`ParseFloat` errors,
so the non-numeric `aa:bb:cc` yields `some 0` instead of an error; and the
float64 millisecond computation truncates `00:00:01.130` to 1.129 s instead
of the claimed exact `H+M+S+mmm` duration of 1.130 s. -/
theorem c9_parse_delta_counterexample :
    parseDelta ("aa:bb:cc".toList) = some 0 ∧
    parseDelta ("00:00:01.130".toList) = some 1129000000 ∧
    specDurationNs 0 0 1 130 = 1130000000 ∧
    parseDelta ("00:00:01.130".toList) ≠ some (specDurationNs 0 0 1 130) := by
  refine ⟨rfl, rfl, rfl, ?_⟩
  intro h
  simp only [show specDurationNs 0 0 1 130 = 1130000000 from rfl] at h
  have : (1129000000 : ℤ) = 1130000000 := by
    have h' : parseDelta ("00:00:01.130".toList) = some 1129000000 := rfl
    rw [h'] at h
    exact Option.some_injective _ h
  exact absurd this (by decide)

/-- C3: when an `EndedMainLap` event is processed for a registered
competitor, lapsCompleted is incremented by one; if afterwards lapDurations
is still empty and lapsCompleted equals the configured lap count, the single
duration (event timestamp minus scheduledStartTime) is appended to
lapDurations, and no lap duration is appended under any other condition; and
finishTime is set to the event timestamp on every such event. -/
theorem c3_ended_main_lap (cfg : Config) (baseStart delta : ℤ) (st : RaceState)
    (e : Event) (comp : Competitor)
    (hreg : lookupComp st.competitors e.competitorID = some comp)
    (hid : e.eventID = 10) :
    ∃ st', step cfg baseStart delta st e = some st' ∧
      ∃ comp', lookupComp st'.competitors e.competitorID = some comp' ∧
        comp'.lapsCompleted = comp.lapsCompleted + 1 ∧
        comp'.finishTime = e.time ∧
        comp'.lapTimes = (if comp.lapTimes = [] ∧ comp.lapsCompleted + 1 = cfg.laps
                          then comp.lapTimes ++ [e.time - comp.startTime]
                          else comp.lapTimes) := by
  have hk : kindOf e.eventID = .endedTheMainLap := by rw [hid]; rfl
  simp only [step, hk, hreg]
  by_cases hcond : comp.lapTimes = [] ∧ comp.lapsCompleted + 1 = cfg.laps <;>
    refine ⟨_, rfl, _, lookupComp_updateComp_self _ _ _, ?_, ?_, ?_⟩ <;>
    simp [hcond]

/-- Witness for C3: the second `EndedMainLap` of the §8 scenario appends the
single aggregate split. -/
theorem c3_ended_main_lap_witness :
    ∃ st', step exCfg exBase exDelta
        { competitors := [(1, { freshCompetitor 1 with
                                lapsCompleted := 1, started := true
                                startTime := todTime 10 0 0 0
                                finishTime := todTime 10 5 0 0 })]
          startOrder := [] }
        (mkEvent (todTime 10 10 0 0) 10 1 []) = some st' ∧
      ∃ comp', lookupComp st'.competitors 1 = some comp' ∧
        comp'.lapsCompleted = 1 + 1 ∧
        comp'.finishTime = todTime 10 10 0 0 ∧
        comp'.lapTimes = [todTime 10 10 0 0 - todTime 10 0 0 0] := by
  have h := c3_ended_main_lap exCfg exBase exDelta
    { competitors := [(1, { freshCompetitor 1 with
                            lapsCompleted := 1, started := true
                            startTime := todTime 10 0 0 0
                            finishTime := todTime 10 5 0 0 })]
      startOrder := [] }
    (mkEvent (todTime 10 10 0 0) 10 1 []) _ rfl rfl
  obtain ⟨st', hstep, comp', hlk, hlaps, hfin, hlt⟩ := h
  refine ⟨st', hstep, comp', hlk, hlaps, hfin, ?_⟩
  rw [hlt]
  decide

/-- C5 (amended): when an `ActuallyStarted` event is processed for a
registered competitor, started is set to true unconditionally; the allowed
time is `scheduledStartTime + parseDelta(cfg.startDelta)` — where
`parseDelta`'s float64 truncation can undercount the configured
startInterval by one millisecond — and notStartedFlag is set exactly when
the event timestamp is strictly after that allowed time, otherwise left
unchanged. -/
theorem c5_actually_started (cfg : Config) (baseStart delta : ℤ) (st : RaceState)
    (e : Event) (comp : Competitor)
    (hdelta : parseDelta cfg.startDelta = some delta)
    (hreg : lookupComp st.competitors e.competitorID = some comp)
    (hid : e.eventID = 4) :
    ∃ st', step cfg baseStart delta st e = some st' ∧
      ∃ comp', lookupComp st'.competitors e.competitorID = some comp' ∧
        comp'.started = true ∧
        comp'.isNotFinished =
          (if comp.startTime + delta < e.time then true else comp.isNotFinished) := by
  have hk : kindOf e.eventID = .isStarted := by rw [hid]; rfl
  simp only [step, hk, hreg]
  refine ⟨_, rfl, _, lookupComp_updateComp_self _ _ _, ?_, ?_⟩ <;> simp

/-- Witness for C5's amended theorem: the `c5Events` run, where the start at
`10:00:01.130` is 1 ms after the allowed `10:00:00.000 + 1.129 s`. -/
theorem c5_actually_started_witness :
    ∃ st', step c5Cfg exBase c5Delta
        { competitors := [(1, { freshCompetitor 1 with startTime := todTime 10 0 0 0 })]
          startOrder := [] }
        (mkEvent (todTime 10 0 1 130) 4 1 []) = some st' ∧
      ∃ comp', lookupComp st'.competitors 1 = some comp' ∧
        comp'.started = true ∧ comp'.isNotFinished = true := by
  have h := c5_actually_started c5Cfg exBase c5Delta
    { competitors := [(1, { freshCompetitor 1 with startTime := todTime 10 0 0 0 })]
      startOrder := [] }
    (mkEvent (todTime 10 0 1 130) 4 1 []) _ (by decide) rfl rfl
  obtain ⟨st', hstep, comp', hlk, hs, hflag⟩ := h
  refine ⟨st', hstep, comp', hlk, hs, ?_⟩
  rw [hflag]
  decide

/-- C7 (amended): once a competitor's disqualified flag is set, it remains
set across every subsequent successfully processed event except a Register
event for that same identifier, which overwrites the record with a fresh one
and thereby resets the flag. -/
theorem c7_disqualified_permanent_amended (cfg : Config) (baseStart delta : ℤ)
    (st st' : RaceState) (e : Event) (cid : ℤ) (comp : Competitor)
    (hc : lookupComp st.competitors cid = some comp)
    (hdq : comp.isDisqualified = true)
    (hnr : ¬(e.eventID = 1 ∧ e.competitorID = cid))
    (hstep : step cfg baseStart delta st e = some st') :
    ∃ comp', lookupComp st'.competitors cid = some comp' ∧
      comp'.isDisqualified = true := by
  have hne : ∀ (c' : Competitor), cid ≠ e.competitorID →
      lookupComp (updateComp st.competitors e.competitorID c') cid = some comp := by
    intro c' hne0
    rw [lookupComp_updateComp_ne _ _ _ _ hne0]
    exact hc
  simp only [step] at hstep
  rcases hkind : kindOf e.eventID <;> simp only [hkind] at hstep
  -- 1: register (excluded identifier by hnr)
  · have hcid : cid ≠ e.competitorID :=
      fun h => hnr ⟨(kindOf_eq_register e.eventID).mp hkind, h.symm⟩
    obtain rfl := Option.some.inj hstep
    exact ⟨comp, hne _ hcid, hdq⟩
  -- 2: startTime
  · cases hres : lookupComp st.competitors e.competitorID with
    | none => rw [hres] at hstep; exact absurd hstep (by simp)
    | some c0 =>
      rw [hres] at hstep
      obtain rfl := Option.some.inj hstep
      by_cases hcid : cid = e.competitorID
      · subst hcid
        rw [hc] at hres
        obtain rfl := Option.some.inj hres
        exact ⟨_, lookupComp_updateComp_self _ _ _, hdq⟩
      · exact ⟨comp, hne _ hcid, hdq⟩
  -- 3: startLine
  · obtain rfl := Option.some.inj hstep
    exact ⟨comp, hc, hdq⟩
  -- 4: isStarted
  · cases hres : lookupComp st.competitors e.competitorID with
    | none => rw [hres] at hstep; exact absurd hstep (by simp)
    | some c0 =>
      rw [hres] at hstep
      obtain rfl := Option.some.inj hstep
      by_cases hcid : cid = e.competitorID
      · subst hcid
        rw [hc] at hres
        obtain rfl := Option.some.inj hres
        exact ⟨_, lookupComp_updateComp_self _ _ _, hdq⟩
      · exact ⟨comp, hne _ hcid, hdq⟩
  -- 5: onTheFiringRange
  · obtain rfl := Option.some.inj hstep
    exact ⟨comp, hc, hdq⟩
  -- 6: hit
  · cases hres : lookupComp st.competitors e.competitorID with
    | none => rw [hres] at hstep; exact absurd hstep (by simp)
    | some c0 =>
      rw [hres] at hstep
      obtain rfl := Option.some.inj hstep
      by_cases hcid : cid = e.competitorID
      · subst hcid
        rw [hc] at hres
        obtain rfl := Option.some.inj hres
        exact ⟨_, lookupComp_updateComp_self _ _ _, hdq⟩
      · exact ⟨comp, hne _ hcid, hdq⟩
  -- 7: leftTheFiringRange
  · cases hres : lookupComp st.competitors e.competitorID with
    | none => rw [hres] at hstep; exact absurd hstep (by simp)
    | some c0 =>
      rw [hres] at hstep
      obtain rfl := Option.some.inj hstep
      exact ⟨comp, hc, hdq⟩
  -- 8: enteredThePenaltyLaps
  · cases hres : lookupComp st.competitors e.competitorID with
    | none => rw [hres] at hstep; exact absurd hstep (by simp)
    | some c0 =>
      rw [hres] at hstep
      obtain rfl := Option.some.inj hstep
      by_cases hcid : cid = e.competitorID
      · subst hcid
        rw [hc] at hres
        obtain rfl := Option.some.inj hres
        exact ⟨_, lookupComp_updateComp_self _ _ _, hdq⟩
      · exact ⟨comp, hne _ hcid, hdq⟩
  -- 9: leftThePenaltyLaps
  · cases hres : lookupComp st.competitors e.competitorID with
    | none => rw [hres] at hstep; exact absurd hstep (by simp)
    | some c0 =>
      rw [hres] at hstep
      obtain rfl := Option.some.inj hstep
      by_cases hcid : cid = e.competitorID
      · subst hcid
        rw [hc] at hres
        obtain rfl := Option.some.inj hres
        exact ⟨_, lookupComp_updateComp_self _ _ _, hdq⟩
      · exact ⟨comp, hne _ hcid, hdq⟩
  -- 10: endedTheMainLap
  · cases hres : lookupComp st.competitors e.competitorID with
    | none => rw [hres] at hstep; exact absurd hstep (by simp)
    | some c0 =>
      rw [hres] at hstep
      obtain rfl := Option.some.inj hstep
      by_cases hcid : cid = e.competitorID
      · subst hcid
        rw [hc] at hres
        obtain rfl := Option.some.inj hres
        refine ⟨_, lookupComp_updateComp_self _ _ _, ?_⟩
        by_cases hcond : comp.lapTimes = [] ∧ comp.lapsCompleted + 1 = cfg.laps <;>
          simp [hcond, hdq]
      · exact ⟨comp, hne _ hcid, hdq⟩
  -- 11: comment (sets the flag, in particular keeps it)
  · cases hres : lookupComp st.competitors e.competitorID with
    | none => rw [hres] at hstep; exact absurd hstep (by simp)
    | some c0 =>
      rw [hres] at hstep
      obtain rfl := Option.some.inj hstep
      by_cases hcid : cid = e.competitorID
      · subst hcid
        rw [hc] at hres
        obtain rfl := Option.some.inj hres
        exact ⟨_, lookupComp_updateComp_self _ _ _, rfl⟩
      · exact ⟨comp, hne _ hcid, hdq⟩
  -- default: unknown event kind
  · obtain rfl := Option.some.inj hstep
    exact ⟨comp, hc, hdq⟩

/-- Witness for C7's amended theorem: a disqualified competitor stays
disqualified across a `Hit` event for another competitor. -/
theorem c7_disqualified_permanent_amended_witness :
    ∃ comp', lookupComp
        ({ competitors := [(1, { freshCompetitor 1 with isDisqualified := true }),
                           (2, { freshCompetitor 2 with hits := 1 })]
           startOrder := [] } : RaceState).competitors 1 = some comp' ∧
      comp'.isDisqualified = true :=
  c7_disqualified_permanent_amended exCfg exBase exDelta
    { competitors := [(1, { freshCompetitor 1 with isDisqualified := true }),
                      (2, freshCompetitor 2)]
      startOrder := [] }
    { competitors := [(1, { freshCompetitor 1 with isDisqualified := true }),
                      (2, { freshCompetitor 2 with hits := 1 })]
      startOrder := [] }
    (mkEvent (todTime 10 0 0 0) 6 2 []) 1
    { freshCompetitor 1 with isDisqualified := true }
    rfl rfl (by decide) rfl

/-- C10 counterexample: the line `[99:99:99.999] 1 1` contains a substring
matching the event pattern (the regex puts no range constraints on the
digits), yet `parseEvent` returns an error because `time.Parse` rejects the
matched timestamp — so "rejects only when no substring matches" is false. -/
theorem c10_parse_event_counterexample :
    findEventMatch ("[99:99:99.999] 1 1".toList) =
      some ("99:99:99.999".toList, ['1'], ['1'], []) ∧
    parseEvent ("[99:99:99.999] 1 1".toList) = none := by
  exact ⟨rfl, rfl⟩

set_option maxRecDepth 100000 in
/-- C8 (code bug): `sort.Slice` is not a stable sort.  On `c8Events` —
whose competitors 1 through 12 appear in that input order with one identical
timestamp — the pdqsort partition moves competitor 6's event in front of
competitors 1 through 5, so the processing (and narration) order of
equal-timestamp events does not preserve input order.  The evaluation takes
the fully deterministic path (median-of-three pivot, failed partial
insertion sort, one partition, insertion sorts on both sides); the
randomized `breakPatterns` branch is never reached for this input. -/
theorem c8_sort_slice_unstable :
    c8Events.map Event.time =
      todTime 10 0 1 0 :: List.replicate 12 (todTime 10 0 0 0) ∧
    c8Events.map Event.competitorID = [0, 1, 2, 3, 4, 5, 6, 7, 8, 9, 10, 11, 12] ∧
    (sortSliceEvents c8Events).map Event.competitorID =
      [6, 1, 2, 3, 4, 5, 7, 8, 9, 10, 11, 12, 0] := by
  exact ⟨by decide, by decide, by decide⟩

/-- C4: when an `AssignedStartTime` event is processed for a registered
competitor, with `previous` the scheduled start time assigned immediately
before this one (the race's configured scheduledStart if this is the first
assignment), the notStartedFlag is set to true exactly when the newly
assigned scheduledStartTime minus `previous` exceeds the configured
startInterval (the `HH:MM:SS[.mmm]` start delta read as an exact duration),
and is left unchanged otherwise; the record's scheduledStartTime becomes the
parsed payload. -/
theorem c4_assigned_start_interval (cfg : Config) (baseStart delta : ℤ)
    (st : RaceState) (e : Event) (comp : Competitor) (h m s ms : ℕ)
    (hh : h < 24) (hm : m < 60) (hs : s < 60) (hms : ms < 1000)
    (hsd : cfg.startDelta = renderHMSms h m s ms ∨
           (cfg.startDelta = renderHMS h m s ∧ ms = 0))
    (hreg : lookupComp st.competitors e.competitorID = some comp)
    (hid : e.eventID = 2) :
    ∃ st', step cfg baseStart delta st e = some st' ∧
      ∃ comp', lookupComp st'.competitors e.competitorID = some comp' ∧
        comp'.startTime = (goParseTimeLayout e.extra).getD 0 ∧
        comp'.isNotFinished =
          (if (goParseTimeLayout e.extra).getD 0 -
                (match st.startOrder.getLast? with
                 | none => baseStart
                 | some prev => prev.startTime) > specDurationNs h m s ms
           then true
           else comp.isNotFinished) := by
  have hint : startDeltaInterval cfg.startDelta = specDurationNs h m s ms := by
    rcases hsd with h1 | ⟨h1, h2⟩
    · rw [h1, startDeltaInterval, goParseHMSDay_renderHMSms h m s ms hh hm hs hms]
      simp [specDurationNs]
      ring
    · rw [h1, startDeltaInterval, goParseHMSDay_renderHMS h m s hh hm hs, h2]
      simp [specDurationNs]
      ring
  have hk : kindOf e.eventID = .startTime := by rw [hid]; rfl
  simp only [step, hk, hreg, hint]
  exact ⟨_, rfl, _, lookupComp_updateComp_self _ _ _, rfl, rfl⟩

/-- Witness for C4: the spec's §8 scenario — competitor 2 assigned
`10:02:00.000` right after competitor 1's `10:00:00.000` with a 90-second
interval — gets the flag. -/
theorem c4_assigned_start_interval_witness :
    ∃ st', step exCfg exBase exDelta
        { competitors := [(2, freshCompetitor 2)]
          startOrder := [{ freshCompetitor 1 with startTime := todTime 10 0 0 0 }] }
        (mkEvent (todTime 9 2 0 0) 2 2 ("10:02:00.000".toList)) = some st' ∧
      ∃ comp', lookupComp st'.competitors 2 = some comp' ∧
        comp'.startTime = todTime 10 2 0 0 ∧ comp'.isNotFinished = true := by
  have h := c4_assigned_start_interval exCfg exBase exDelta
    { competitors := [(2, freshCompetitor 2)]
      startOrder := [{ freshCompetitor 1 with startTime := todTime 10 0 0 0 }] }
    (mkEvent (todTime 9 2 0 0) 2 2 ("10:02:00.000".toList))
    (freshCompetitor 2) 0 1 30 0
    (by norm_num) (by norm_num) (by norm_num) (by norm_num)
    (Or.inr ⟨by decide, rfl⟩) rfl rfl
  obtain ⟨st', hstep, comp', hlk, hstart, hflag⟩ := h
  refine ⟨st', hstep, comp', hlk, ?_, ?_⟩
  · rw [hstart]
    decide
  · rw [hflag]
    decide

/-- C9 (amended): `parseDelta` parses `HH:MM:SS` numeric strings to exactly
`H` hours + `M` minutes + `S` seconds; it returns an error exactly when the
string does not split into three colon-separated fields (non-numeric
components are silently treated as zero, not rejected); and on
`HH:MM:SS.mmm` strings the milliseconds pass through float64 truncation,
which reproduces `mmm` for many values (e.g. `.670`) but loses a
millisecond for others (e.g. `01.130` parses to 1.129 s). -/
theorem c9_parse_delta_amended :
    (∀ h m s : ℕ, h < 100 → m < 100 → s < 100 →
        parseDelta (renderHMS h m s) =
          some ((h : ℤ) * 3600000000000 + (m : ℤ) * 60000000000 +
                (s : ℤ) * 1000000000)) ∧
    (∀ l : List Char, parseDelta l = none ↔ (splitOnChar ':' l).length ≠ 3) ∧
    parseDelta ("01:23:45.670".toList) = some 5025670000000 ∧
    parseDelta ("00:00:01.130".toList) = some 1129000000 ∧
    parseDelta ("aa:bb:cc".toList) = some 0 := by
  refine ⟨?_, ?_, rfl, rfl, rfl⟩
  · intro h m s hh hm hs
    have hsplit := splitOnChar_renderHMS h m s hh hm hs
    obtain ⟨hsec, hmsec⟩ := parseDelta_sec_pipeline s hs
    simp only [parseDelta, hsplit, atoiModel_pad2 h hh, atoiModel_pad2 m hm,
      Option.getD_some, hsec, hmsec]
    norm_num
  · intro l
    rcases hsp : splitOnChar ':' l with _ | ⟨a, _ | ⟨b, _ | ⟨c, _ | ⟨d, t⟩⟩⟩⟩ <;>
      simp [parseDelta, hsp]

/-- Witness for C9's amended theorem at concrete inputs: the repo's own test
values `00:00:30` and the short field count `1:2`. -/
theorem c9_parse_delta_amended_witness :
    parseDelta (renderHMS 0 0 30) = some 30000000000 ∧
    parseDelta ("1:2".toList) = none := by
  constructor
  · have h := c9_parse_delta_amended.1 0 0 30 (by norm_num) (by norm_num) (by norm_num)
    simpa using h
  · exact (c9_parse_delta_amended.2.1 ("1:2".toList)).mpr (by decide)

/-- C10 (amended): `parseEvent` rejects a line exactly when either no
substring matches the event pattern, or the leftmost match's timestamp fails
`time.Parse`'s range validation; because the pattern is unanchored, a line
with arbitrary text before the bracketed timestamp, or with non-space
garbage directly after the competitor identifier, succeeds with the first
embedded match. -/
theorem c10_parse_event_amended :
    (∀ l : List Char, parseEvent l = none ↔
        (findEventMatch l = none ∨
         ∃ ts ds cs ex, findEventMatch l = some (ts, ds, cs, ex) ∧
           goParseTimeLayout ts = none)) ∧
    parseEvent ("xxx[10:00:00.000] 1 5".toList) =
      some { time := todTime 10 0 0 0, rawTime := "10:00:00.000".toList
             eventID := 1, competitorID := 5, extra := [] } ∧
    parseEvent ("[10:00:00.000] 1 5abc".toList) =
      some { time := todTime 10 0 0 0, rawTime := "10:00:00.000".toList
             eventID := 1, competitorID := 5, extra := [] } := by
  refine ⟨?_, by decide, by decide⟩
  intro l
  rcases hm : findEventMatch l with _ | ⟨ts, ds, cs, ex⟩
  · simp [parseEvent, hm]
  · rcases ht : goParseTimeLayout ts with _ | t <;>
      simp [parseEvent, hm, ht]

/-- Witness for C10's amended theorem: the repo's own bad-line test input
`hello bad 1` is rejected because no substring matches. -/
theorem c10_parse_event_amended_witness :
    parseEvent ("hello bad 1".toList) = none :=
  (c10_parse_event_amended.1 ("hello bad 1".toList)).mpr (Or.inl rfl)

end Biathlon
